import Mathlib

/-
Verification development for the snappea Foreman background-task dispatcher
(src/snappea/foreman.py of the bugsink repository).

The Foreman is a single-threaded dispatcher loop.  We shallowly embed its
operations as Lean functions over explicit state:

* `create_workers` / `dispatchBatch` embed `Foreman.create_workers`
  (foreman.py lines 159-203): the batch is `store.take 100`
  (`Task.objects.all()[:100]`, the store list is kept in insertion /
  rowid order, so the batch is the up-to-100 oldest rows); for each batch
  task the loop acquires a worker slot (a SIGINT may arrive while blocked
  there, injected by the oracle `sig`), runs `check_for_stopping` (which
  performs `sys.exit()` when the stopping flag is set, embedded as the
  `CWResult.exit` outcome), looks the handler up in the registry (an
  uncaught `KeyError` when absent, embedded as `CWResult.keyError`),
  re-checks for stopping, deletes the row and hands the task to a worker
  thread.  The event trace records the row deletion and the start of the
  handler's execution.

* `drainBacklog` embeds the boot-time loop of `run_forever`
  (foreman.py lines 142-144): `while self.create_workers() > 0: pass`,
  written with explicit fuel (the loop terminates because each non-zero
  round removes the dispatched rows from the store).

* `handle_sigint` embeds `Foreman.handle_sigint` (lines 112-127) over the
  fields it touches.

* `check_for_stopping` / `waitLoop` embed `Foreman.check_for_stopping`
  (lines 205-224) with discrete time: each worker is a pair of its task id
  and an optional absolute finishing time (`none` for a handler that never
  returns); `thread.join(timeout)` becomes `joinUntil`.

* `non_failing_function` embeds the worker wrapper built by
  `run_in_thread` (lines 90-100): the handler outcome is an
  `Except String Unit`, the `except` branch logs and captures, the
  `finally` branch removes the bookkeeping entry and releases the slot.

* `slotStep` / `slotRun` embed the `worker_semaphore` protocol
  (a `threading.Semaphore(NUM_WORKERS)`, line 85): `dispatch` is the
  foreman's acquire followed by the post-acquire stopping checks passing
  (only then is a task handed to a worker), `workerDone` is the release in
  the worker's `finally` block, `sigint` is the unconditional release in
  `handle_sigint` (line 127) which also sets the stopping flag.

The `Workers` bookkeeping container lives in src/snappea/datastructures.py,
which is not part of the provided sources; its `start`/`stopped`/`list`
calls are modelled from the spec: "Running Worker (in-memory,
dispatcher-owned): task_id, handle to the executing unit.  Created when
dispatch occurs; removed when execution completes" — a list of task ids in
`ForemanS.workers`, and the removal flag `workerRemoved` in `WorkerRun`.
-/

namespace Snappea

def GRACEFUL_TIMEOUT : Nat := 10

def NUM_WORKERS : Nat := 4

/-- A row of the Task Store (snappea.models.Task): unique `id`,
`task_name` keying into the registry, serialized `args`/`kwargs`
(carried opaquely; their deserialization is not modelled). -/
structure Task where
  id : Nat
  task_name : String
  args : String
  kwargs : String
deriving DecidableEq

/-- Observable events of one `create_workers` pass: slot acquisition for
the batch task at position `n`, deletion of a task's row
(`task.delete()`, line 194) and the start of its handler's execution in a
worker thread (`run_in_thread`, line 195). -/
inductive Ev where
  | acquireSlot (n : Nat)
  | deleteRow (id : Nat)
  | startExec (id : Nat)
deriving DecidableEq

/-- State of the Foreman visible to `create_workers`: the Task Store in
insertion order, the stopping flag set by `handle_sigint`, the
active-worker bookkeeping, the log of dispatched task ids (in dispatch
order) and the event trace. -/
structure ForemanS where
  store : List Task
  stopping : Bool
  workers : List Nat
  dispatched : List Nat
  trace : List Ev
deriving DecidableEq

/-- Outcome of one `create_workers` call: a normal return with the count
`task_i + 1` of tasks dispatched, the process exit performed by
`check_for_stopping` when the stopping flag is set, or the uncaught
`KeyError` raised by `registry[task.task_name]` (missing exception
handler, see the TODO at foreman.py lines 186-187). -/
inductive CWResult where
  | ret (count : Nat) (s : ForemanS)
  | exit (s : ForemanS)
  | keyError (name : String) (s : ForemanS)
deriving DecidableEq

def CWResult.state : CWResult → ForemanS
  | CWResult.ret _ s => s
  | CWResult.exit s => s
  | CWResult.keyError _ s => s

/-- `task.delete()`: remove the row with the given id from the store. -/
def deleteTask (st : List Task) (i : Nat) : List Task :=
  st.filter (fun u => u.id != i)

/-- Cumulative effect on the store of deleting each task of a list in
order. -/
def purge : List Task → List Task → List Task
  | st, [] => st
  | st, t :: rest => purge (deleteTask st t.id) rest

/-- The trace produced by successfully dispatching a list of tasks,
the first at batch position `n`. -/
def trailOf : Nat → List Task → List Ev
  | _, [] => []
  | n, t :: rest =>
      Ev.acquireSlot n :: Ev.deleteRow t.id :: Ev.startExec t.id :: trailOf (n + 1) rest

/-- Per-task body of `create_workers` (foreman.py lines 179-195), iterated
over the already-materialized batch.  `sig n` says whether a SIGINT
arrives while the foreman is blocked in `worker_semaphore.acquire()` for
the batch task at position `n`; `check_for_stopping` right after the
acquire exits the process when the flag is set.  The registry is the list
of known task names; a name outside it raises an uncaught `KeyError`
before the row is deleted. -/
def dispatchBatch (reg : List String) (sig : Nat → Bool) :
    List Task → Nat → ForemanS → CWResult
  | [], n, s => CWResult.ret n s
  | t :: rest, n, s =>
      let s1 : ForemanS :=
        { s with stopping := s.stopping || sig n,
                 trace := s.trace ++ [Ev.acquireSlot n] }
      if s1.stopping then CWResult.exit s1
      else if reg.contains t.task_name then
        let s2 : ForemanS :=
          { s1 with store := deleteTask s1.store t.id,
                    workers := s1.workers ++ [t.id],
                    dispatched := s1.dispatched ++ [t.id],
                    trace := s1.trace ++ [Ev.deleteRow t.id, Ev.startExec t.id] }
        dispatchBatch reg sig rest (n + 1) s2
      else CWResult.keyError t.task_name s1

/-- `Foreman.create_workers` (foreman.py lines 159-203): fetch the batch
`Task.objects.all()[:100]` and run the dispatch loop over it. -/
def create_workers (reg : List String) (sig : Nat → Bool) (s : ForemanS) : CWResult :=
  dispatchBatch reg sig (s.store.take 100) 0 s

/-- Oracle for runs during which no SIGINT arrives. -/
def sigFalse : Nat → Bool := fun _ => false

/-- Boot-time backlog drain of `run_forever` (foreman.py lines 143-144):
`while self.create_workers() > 0: pass`, with explicit fuel.  A process
exit or an uncaught lookup error aborts the loop (`none`). -/
def drainBacklog (reg : List String) (sig : Nat → Bool) :
    Nat → ForemanS → Option ForemanS
  | 0, _ => none
  | fuel + 1, s =>
      match create_workers reg sig s with
      | CWResult.ret 0 s1 => some s1
      | CWResult.ret (_ + 1) s1 => drainBacklog reg sig fuel s1
      | CWResult.exit _ => none
      | CWResult.keyError _ _ => none

/-- Event `a` occurs strictly before event `b` in the trace `l`. -/
def precedes (l : List Ev) (a b : Ev) : Prop :=
  ∃ l1 l2 l3, l = l1 ++ a :: (l2 ++ b :: l3)

lemma mem_of_mem_purge {a : Task} :
    ∀ (p st : List Task), a ∈ purge st p → a ∈ st
  | [], _, h => h
  | t :: rest, st, h =>
      List.mem_of_mem_filter (mem_of_mem_purge rest (deleteTask st t.id) h)

lemma id_ne_of_mem_deleteTask {a : Task} {st : List Task} {i : Nat}
    (h : a ∈ deleteTask st i) : a.id ≠ i := by
  have := List.of_mem_filter h
  simpa using this

lemma not_mem_map_purge :
    ∀ (p st : List Task) (i : Nat),
      i ∈ p.map Task.id → i ∉ (purge st p).map Task.id
  | [], _, _, hin, _ => by simp at hin
  | t :: rest, st, i, hin, habs => by
      rcases List.mem_map.mp habs with ⟨a, ha, rfl⟩
      rcases List.mem_cons.mp hin with heq | hin2
      · have hdel : a ∈ deleteTask st t.id :=
          mem_of_mem_purge rest (deleteTask st t.id) ha
        exact id_ne_of_mem_deleteTask hdel heq
      · exact not_mem_map_purge rest (deleteTask st t.id) a.id hin2
          (List.mem_map.mpr ⟨a, ha, rfl⟩)

lemma mem_purge_of_not_mem :
    ∀ (p st : List Task) (a : Task),
      a ∈ st → a.id ∉ p.map Task.id → a ∈ purge st p
  | [], _, _, ha, _ => ha
  | t :: rest, st, a, ha, hn => by
      have hne : a.id ≠ t.id := by
        intro h
        exact hn (by simp [h])
      have ha2 : a ∈ deleteTask st t.id :=
        List.mem_filter.mpr ⟨ha, by simpa using hne⟩
      exact mem_purge_of_not_mem rest (deleteTask st t.id) a ha2
        (fun h => hn (List.mem_cons_of_mem _ h))

lemma purge_take_drop :
    ∀ (st : List Task) (k : Nat),
      (st.map Task.id).Nodup → purge st (st.take k) = st.drop k
  | [], k, _ => by simp [purge]
  | _ :: _, 0, _ => by simp [purge]
  | t :: rest, k + 1, hnd => by
      rw [List.map_cons, List.nodup_cons] at hnd
      have hnotin : t.id ∉ rest.map Task.id := hnd.1
      have hself : deleteTask (t :: rest) t.id = rest := by
        simp only [deleteTask, List.filter_cons]
        have : (t.id != t.id) = false := by simp
        rw [this]
        exact List.filter_eq_self.mpr (fun a ha => by
          have : a.id ≠ t.id := by
            intro h
            exact hnotin (List.mem_map.mpr ⟨a, ha, h⟩)
          simpa using this)
      show purge (deleteTask (t :: rest) t.id) (rest.take k) = rest.drop k
      rw [hself]
      exact purge_take_drop rest k hnd.2

lemma trailOf_split {t : Task} :
    ∀ (p : List Task) (n : Nat), t ∈ p →
      ∃ l1 l3 m, trailOf n p =
        l1 ++ Ev.acquireSlot m :: Ev.deleteRow t.id :: Ev.startExec t.id :: l3
  | [], _, h => absurd h (List.not_mem_nil _)
  | u :: rest, n, h => by
      rcases List.mem_cons.mp h with rfl | h2
      · exact ⟨[], trailOf (n + 1) rest, n, by simp [trailOf]⟩
      · rcases trailOf_split rest (n + 1) h2 with ⟨l1, l3, m, hm⟩
        exact ⟨Ev.acquireSlot n :: Ev.deleteRow u.id :: Ev.startExec u.id :: l1,
          l3, m, by simp [trailOf, hm]⟩

lemma count_startExec_trailOf :
    ∀ (p : List Task) (n i : Nat),
      (trailOf n p).count (Ev.startExec i) = (p.map Task.id).count i
  | [], _, _ => rfl
  | t :: rest, n, i => by
      simp only [trailOf, List.map_cons, List.count_cons]
      rw [count_startExec_trailOf rest (n + 1) i]
      simp

/-- Success path of the dispatch loop: with the stopping flag clear, no
SIGINT arriving, and every batch task's name known to the registry, the
whole batch is dispatched in order, each row deleted, and the count of
dispatched tasks returned. -/
lemma dispatchBatch_ok (reg : List String) (sig : Nat → Bool) (batch : List Task) :
    ∀ (n : Nat) (s : ForemanS),
      s.stopping = false →
      (∀ i, i < batch.length → sig (n + i) = false) →
      (∀ t ∈ batch, reg.contains t.task_name = true) →
      dispatchBatch reg sig batch n s =
        CWResult.ret (n + batch.length)
          ⟨purge s.store batch, false, s.workers ++ batch.map Task.id,
           s.dispatched ++ batch.map Task.id, s.trace ++ trailOf n batch⟩ := by
  induction batch with
  | nil =>
      intro n s hs _ _
      cases s
      simp_all [dispatchBatch, purge, trailOf]
  | cons t rest ih =>
      intro n s hs hsig hreg
      have h0 : sig n = false := by simpa using hsig 0 (by simp)
      have hct : reg.contains t.task_name = true := hreg t (by simp)
      have hrec := ih (n + 1)
        ⟨deleteTask s.store t.id, false, s.workers ++ [t.id], s.dispatched ++ [t.id],
         (s.trace ++ [Ev.acquireSlot n]) ++ [Ev.deleteRow t.id, Ev.startExec t.id]⟩
        rfl
        (fun i hi => by
          have he : n + 1 + i = n + (i + 1) := by omega
          rw [he]
          exact hsig (i + 1) (by simpa using Nat.succ_lt_succ hi))
        (fun u hu => hreg u (List.mem_cons_of_mem _ hu))
      simp only [dispatchBatch, hs, h0, Bool.or_false, if_neg, hct, if_pos, Bool.false_eq_true,
        not_false_iff]
      rw [hrec]
      have harith : n + 1 + rest.length = n + (t :: rest).length := by
        simp only [List.length_cons]
        omega
      rw [harith]
      simp [purge, trailOf, ForemanS.mk.injEq, List.append_assoc]

/-- Exit path of the dispatch loop: if the first SIGINT of the run arrives
while the foreman is blocked acquiring a slot for the batch task at
position `k`, the tasks before `k` are dispatched normally and the
`check_for_stopping` call right after that acquire exits the process,
leaving task `k` neither deleted nor dispatched. -/
lemma dispatchBatch_exit_at (reg : List String) (sig : Nat → Bool) (batch : List Task) :
    ∀ (k n : Nat) (s : ForemanS),
      k < batch.length →
      s.stopping = false →
      (∀ i, i < k → sig (n + i) = false) →
      sig (n + k) = true →
      (∀ t ∈ batch.take k, reg.contains t.task_name = true) →
      dispatchBatch reg sig batch n s =
        CWResult.exit
          ⟨purge s.store (batch.take k), true,
           s.workers ++ (batch.take k).map Task.id,
           s.dispatched ++ (batch.take k).map Task.id,
           s.trace ++ trailOf n (batch.take k) ++ [Ev.acquireSlot (n + k)]⟩ := by
  induction batch with
  | nil =>
      intro k n s hk _ _ _ _
      exact absurd hk (by simp)
  | cons t rest ih =>
      intro k n s hk hs hsig hsigk hreg
      match k with
      | 0 =>
          have h0 : sig n = true := by simpa using hsigk
          simp [dispatchBatch, hs, h0, purge, trailOf]
      | j + 1 =>
          have h0 : sig n = false := by simpa using hsig 0 (by omega)
          have hct : reg.contains t.task_name = true := hreg t (by simp)
          have hrec := ih j (n + 1)
            ⟨deleteTask s.store t.id, false, s.workers ++ [t.id], s.dispatched ++ [t.id],
             (s.trace ++ [Ev.acquireSlot n]) ++ [Ev.deleteRow t.id, Ev.startExec t.id]⟩
            (by simpa using Nat.lt_of_succ_lt_succ hk)
            rfl
            (fun i hi => by
              have he : n + 1 + i = n + (i + 1) := by omega
              rw [he]
              exact hsig (i + 1) (by omega))
            (by
              have he : n + 1 + j = n + (j + 1) := by omega
              rw [he]
              exact hsigk)
            (fun u hu => hreg u (by simp [hu]))
          simp only [dispatchBatch, hs, h0, Bool.or_false, if_neg, hct, if_pos,
            Bool.false_eq_true, not_false_iff]
          rw [hrec]
          have he : n + 1 + j = n + (j + 1) := by omega
          simp [purge, trailOf, ForemanS.mk.injEq, List.append_assoc, he]

/-- `KeyError` path of the dispatch loop: with no SIGINT arriving up to
position `k`, the tasks before `k` dispatched normally, and the name of
the batch task at position `k` absent from the registry, the lookup
`registry[task.task_name]` raises an uncaught `KeyError` before the row
is deleted. -/
lemma dispatchBatch_keyError_at (reg : List String) (sig : Nat → Bool) (batch : List Task) :
    ∀ (k n : Nat) (s : ForemanS) (hk : k < batch.length),
      s.stopping = false →
      (∀ i, i ≤ k → sig (n + i) = false) →
      reg.contains (batch.get ⟨k, hk⟩).task_name = false →
      (∀ t ∈ batch.take k, reg.contains t.task_name = true) →
      dispatchBatch reg sig batch n s =
        CWResult.keyError (batch.get ⟨k, hk⟩).task_name
          ⟨purge s.store (batch.take k), false,
           s.workers ++ (batch.take k).map Task.id,
           s.dispatched ++ (batch.take k).map Task.id,
           s.trace ++ trailOf n (batch.take k) ++ [Ev.acquireSlot (n + k)]⟩ := by
  induction batch with
  | nil =>
      intro k n s hk _ _ _ _
      exact absurd hk (by simp)
  | cons t rest ih =>
      intro k n s hk hs hsig hbad hreg
      match k with
      | 0 =>
          have h0 : sig n = false := by simpa using hsig 0 (by omega)
          have hbm : t.task_name ∉ reg := by
            simpa using (hbad : reg.contains t.task_name = false)
          simp [dispatchBatch, hs, h0, hbm, purge, trailOf]
      | j + 1 =>
          have h0 : sig n = false := by simpa using hsig 0 (by omega)
          have hct : reg.contains t.task_name = true := hreg t (by simp)
          have hrec := ih j (n + 1)
            ⟨deleteTask s.store t.id, false, s.workers ++ [t.id], s.dispatched ++ [t.id],
             (s.trace ++ [Ev.acquireSlot n]) ++ [Ev.deleteRow t.id, Ev.startExec t.id]⟩
            (by simpa using Nat.lt_of_succ_lt_succ hk)
            rfl
            (fun i hi => by
              have he : n + 1 + i = n + (i + 1) := by omega
              rw [he]
              exact hsig (i + 1) (by omega))
            hbad
            (fun u hu => hreg u (by simp [hu]))
          simp only [dispatchBatch, hs, h0, Bool.or_false, if_neg, hct, if_pos,
            Bool.false_eq_true, not_false_iff]
          rw [hrec]
          have he : n + 1 + j = n + (j + 1) := by omega
          simp [purge, trailOf, ForemanS.mk.injEq, List.append_assoc, he]

/-- In every outcome of the dispatch loop, an order-respecting split of
the batch exists: a processed front segment `p` whose rows were deleted
and whose tasks were dispatched, and an untouched remainder `suf`; the
trace consists of the dispatch events of `p`, possibly followed by a
single trailing slot acquisition. -/
lemma dispatchBatch_split (reg : List String) (sig : Nat → Bool) (batch : List Task) :
    ∀ (n : Nat) (s : ForemanS),
      ∃ p suf ex,
        batch = p ++ suf ∧
        (dispatchBatch reg sig batch n s).state.store = purge s.store p ∧
        (dispatchBatch reg sig batch n s).state.dispatched = s.dispatched ++ p.map Task.id ∧
        (dispatchBatch reg sig batch n s).state.trace = s.trace ++ (trailOf n p ++ ex) ∧
        (ex = [] ∨ ∃ m, ex = [Ev.acquireSlot m]) := by
  induction batch with
  | nil =>
      intro n s
      exact ⟨[], [], [], by simp, by simp [dispatchBatch, CWResult.state, purge],
        by simp [dispatchBatch, CWResult.state],
        by simp [dispatchBatch, CWResult.state, trailOf], Or.inl rfl⟩
  | cons t rest ih =>
      intro n s
      by_cases hstop : (s.stopping || sig n) = true
      · refine ⟨[], t :: rest, [Ev.acquireSlot n], by simp, ?_, ?_, ?_, Or.inr ⟨n, rfl⟩⟩ <;>
          simp [dispatchBatch, hstop, CWResult.state, purge, trailOf]
      · have hstop2 : (s.stopping || sig n) = false := by
          simpa using hstop
        by_cases hct : reg.contains t.task_name = true
        · have hm : t.task_name ∈ reg := by simpa using hct
          have hunfold : dispatchBatch reg sig (t :: rest) n s =
              dispatchBatch reg sig rest (n + 1)
                ⟨deleteTask s.store t.id, false, s.workers ++ [t.id], s.dispatched ++ [t.id],
                 s.trace ++ [Ev.acquireSlot n, Ev.deleteRow t.id, Ev.startExec t.id]⟩ := by
            simp [dispatchBatch, hstop2, hm]
          rcases ih (n + 1)
              ⟨deleteTask s.store t.id, false, s.workers ++ [t.id], s.dispatched ++ [t.id],
               s.trace ++ [Ev.acquireSlot n, Ev.deleteRow t.id, Ev.startExec t.id]⟩
            with ⟨p, suf, ex, hsplit, hstore, hdisp, htrace, hex⟩
          refine ⟨t :: p, suf, ex, by simp [hsplit], ?_, ?_, ?_, hex⟩
          · rw [hunfold, hstore]
            simp [purge]
          · rw [hunfold, hdisp]
            simp
          · rw [hunfold, htrace]
            simp [trailOf]
        · have hmn : t.task_name ∉ reg := by simpa using hct
          refine ⟨[], t :: rest, [Ev.acquireSlot n], by simp, ?_, ?_, ?_, Or.inr ⟨n, rfl⟩⟩ <;>
            simp [dispatchBatch, hstop2, hmn, CWResult.state, purge, trailOf]

/-- Concrete fixtures used by the witness and counterexample theorems. -/
def tOne : Task := ⟨1, "alpha", "[]", ""⟩

def tTwo : Task := ⟨2, "beta", "[]", ""⟩

def regAB : List String := ["alpha", "beta"]

def sTwo : ForemanS := ⟨[tOne, tTwo], false, [], [], []⟩

def sOne : ForemanS := ⟨[tOne], false, [], [], []⟩

/-- Oracle for a run whose first SIGINT arrives during the slot
acquisition for the batch task at position 1. -/
def sigAt1 : Nat → Bool := fun n => n == 1

/-- Oracle for a run during which a SIGINT is already waiting at every
slot acquisition. -/
def sigAll : Nat → Bool := fun _ => true

def tDelta : Task := ⟨4, "delta", "[]", ""⟩

def sDelta : ForemanS := ⟨[tOne, tDelta], false, [], [], []⟩

/-- Claim C1: at-most-once dispatch — for every task `create_workers`
dequeues and hands to a worker, the deletion of its row strictly precedes
the start of its handler's execution in the event trace, the handler is
started exactly once, and the task's row no longer exists in the store
afterwards.  This holds in every outcome of the call (normal return,
shutdown exit, lookup error) and for every SIGINT arrival pattern. -/
theorem claim_C1_at_most_once (reg : List String) (sig : Nat → Bool) (s : ForemanS)
    (hnd : (s.store.map Task.id).Nodup) (htr : s.trace = []) (hdi : s.dispatched = []) :
    ∀ i ∈ (create_workers reg sig s).state.dispatched,
      precedes (create_workers reg sig s).state.trace (Ev.deleteRow i) (Ev.startExec i) ∧
      (create_workers reg sig s).state.trace.count (Ev.startExec i) = 1 ∧
      i ∉ (create_workers reg sig s).state.store.map Task.id := by
  intro i hi
  rcases dispatchBatch_split reg sig (s.store.take 100) 0 s with
    ⟨p, suf, ex, hsp, hstore, hdisp, htrace, hex⟩
  have hstore2 : (create_workers reg sig s).state.store = purge s.store p := hstore
  have hdisp2 : (create_workers reg sig s).state.dispatched =
      s.dispatched ++ p.map Task.id := hdisp
  have htrace2 : (create_workers reg sig s).state.trace =
      s.trace ++ (trailOf 0 p ++ ex) := htrace
  rw [hdisp2, hdi, List.nil_append] at hi
  rcases List.mem_map.mp hi with ⟨t, htp, rfl⟩
  have hbatchnd : ((s.store.take 100).map Task.id).Nodup :=
    hnd.sublist ((List.take_sublist 100 s.store).map Task.id)
  have hpnd : (p.map Task.id).Nodup := by
    rw [hsp, List.map_append] at hbatchnd
    exact hbatchnd.of_append_left
  refine ⟨?_, ?_, ?_⟩
  · rcases trailOf_split p 0 htp with ⟨l1, l3, m, hm⟩
    refine ⟨l1 ++ [Ev.acquireSlot m], [], l3 ++ ex, ?_⟩
    rw [htrace2, htr, List.nil_append, hm]
    simp
  · rw [htrace2, htr, List.nil_append, List.count_append, count_startExec_trailOf]
    have h1 : (p.map Task.id).count t.id = 1 :=
      List.count_eq_one_of_mem hpnd (List.mem_map.mpr ⟨t, htp, rfl⟩)
    have h0 : ex.count (Ev.startExec t.id) = 0 := by
      rcases hex with rfl | ⟨m, rfl⟩ <;> simp
    omega
  · rw [hstore2]
    exact not_mem_map_purge p s.store t.id (List.mem_map.mpr ⟨t, htp, rfl⟩)

theorem claim_C1_witness :
    (sTwo.store.map Task.id).Nodup ∧
    (precedes (create_workers regAB sigFalse sTwo).state.trace
        (Ev.deleteRow 1) (Ev.startExec 1) ∧
      (create_workers regAB sigFalse sTwo).state.trace.count (Ev.startExec 1) = 1 ∧
      1 ∉ (create_workers regAB sigFalse sTwo).state.store.map Task.id) :=
  ⟨by decide,
   claim_C1_at_most_once regAB sigFalse sTwo (by decide) rfl rfl 1 (by decide)⟩

/-- The batch read by `create_workers` under a quiet run (no SIGINT, all
names registered): the whole batch is dispatched in order and the store
loses exactly the batch rows. -/
lemma create_workers_quiet (reg : List String) (s : ForemanS)
    (hs : s.stopping = false)
    (hreg : ∀ t ∈ s.store, reg.contains t.task_name = true)
    (hnd : (s.store.map Task.id).Nodup) :
    create_workers reg sigFalse s =
      CWResult.ret (s.store.take 100).length
        ⟨s.store.drop 100, false,
         s.workers ++ (s.store.take 100).map Task.id,
         s.dispatched ++ (s.store.take 100).map Task.id,
         s.trace ++ trailOf 0 (s.store.take 100)⟩ := by
  have hA := dispatchBatch_ok reg sigFalse (s.store.take 100) 0 s hs
    (fun _ _ => rfl) (fun t ht => hreg t (List.mem_of_mem_take ht))
  have hcw : create_workers reg sigFalse s =
      CWResult.ret (0 + (s.store.take 100).length)
        ⟨purge s.store (s.store.take 100), false,
         s.workers ++ (s.store.take 100).map Task.id,
         s.dispatched ++ (s.store.take 100).map Task.id,
         s.trace ++ trailOf 0 (s.store.take 100)⟩ := hA
  rw [hcw, purge_take_drop s.store 100 hnd]
  simp

/-- Boot-time drain: with enough fuel the loop
`while create_workers() > 0: pass` of `run_forever` empties the store and
dispatches every pending task in insertion order. -/
lemma drainBacklog_quiet (reg : List String) :
    ∀ (fuel : Nat) (s : ForemanS),
      s.store.length < fuel →
      s.stopping = false →
      (∀ t ∈ s.store, reg.contains t.task_name = true) →
      (s.store.map Task.id).Nodup →
      ∃ s2, drainBacklog reg sigFalse fuel s = some s2 ∧
        s2.store = [] ∧ s2.stopping = false ∧
        s2.dispatched = s.dispatched ++ s.store.map Task.id := by
  intro fuel
  induction fuel with
  | zero =>
      intro s hlen _ _ _
      exact absurd hlen (by omega)
  | succ f ih =>
      intro s hlen hs hreg hnd
      have hcw := create_workers_quiet reg s hs hreg hnd
      rcases Nat.eq_zero_or_pos (s.store.take 100).length with hz | hpos
      · have hlen0 : s.store.length = 0 := by
          rw [List.length_take] at hz
          omega
        have hstore0 : s.store = [] := List.eq_nil_of_length_eq_zero hlen0
        rw [hz] at hcw
        refine ⟨⟨s.store.drop 100, false,
            s.workers ++ (s.store.take 100).map Task.id,
            s.dispatched ++ (s.store.take 100).map Task.id,
            s.trace ++ trailOf 0 (s.store.take 100)⟩, ?_, ?_, rfl, ?_⟩
        · simp only [drainBacklog, hcw]
        · simp [hstore0]
        · simp [hstore0]
      · obtain ⟨c, hc⟩ : ∃ c, (s.store.take 100).length = c + 1 :=
          ⟨(s.store.take 100).length - 1, by omega⟩
        rw [hc] at hcw
        have hlen1 : 0 < s.store.length := by
          rw [List.length_take] at hc
          omega
        have hrec := ih
          ⟨s.store.drop 100, false,
           s.workers ++ (s.store.take 100).map Task.id,
           s.dispatched ++ (s.store.take 100).map Task.id,
           s.trace ++ trailOf 0 (s.store.take 100)⟩
          (by
            simp only [List.length_drop]
            omega)
          rfl
          (fun t ht => hreg t (List.mem_of_mem_drop ht))
          (by
            rw [List.map_drop]
            exact hnd.sublist (List.drop_sublist 100 (s.store.map Task.id)))
        rcases hrec with ⟨s2, hdrain, hst2, hstp2, hdis2⟩
        refine ⟨s2, ?_, hst2, hstp2, ?_⟩
        · simp only [drainBacklog, hcw]
          exact hdrain
        · rw [hdis2]
          simp only [List.append_assoc]
          rw [← List.map_append, List.take_append_drop]

/-- Claim C2: drain-until-empty — `create_workers` fetches at most 100
tasks per call and returns the number dispatched from that batch; on an
empty store it returns 0 with no error and an unchanged state; and the
boot loop of `run_forever` repeatedly calls `create_workers` until it
returns 0, so every pre-existing task (any K, also K greater than the
100-task batch cap) is dispatched, in insertion order, before the
dispatcher first blocks on the wakeup channel. -/
theorem claim_C2_drain_until_empty (reg : List String) (s : ForemanS)
    (hs : s.stopping = false)
    (hreg : ∀ t ∈ s.store, reg.contains t.task_name = true)
    (hnd : (s.store.map Task.id).Nodup)
    (hdi : s.dispatched = []) :
    (∃ s1, create_workers reg sigFalse s =
        CWResult.ret (min 100 s.store.length) s1) ∧
    (s.store = [] → create_workers reg sigFalse s = CWResult.ret 0 s) ∧
    (∃ s2, drainBacklog reg sigFalse (s.store.length + 1) s = some s2 ∧
        s2.store = [] ∧ s2.dispatched = s.store.map Task.id) := by
  have hcw := create_workers_quiet reg s hs hreg hnd
  refine ⟨⟨_, by rw [hcw, List.length_take]⟩, ?_, ?_⟩
  · intro h0
    rw [hcw]
    cases s
    simp_all [trailOf]
  · rcases drainBacklog_quiet reg (s.store.length + 1) s (by omega) hs hreg hnd with
      ⟨s2, hdrain, hst2, _, hdis2⟩
    exact ⟨s2, hdrain, hst2, by rw [hdis2, hdi, List.nil_append]⟩

theorem claim_C2_witness :
    (∀ t ∈ sTwo.store, regAB.contains t.task_name = true) ∧
    (∃ s2, drainBacklog regAB sigFalse (sTwo.store.length + 1) sTwo = some s2 ∧
        s2.store = [] ∧ s2.dispatched = sTwo.store.map Task.id) :=
  ⟨by decide,
   (claim_C2_drain_until_empty regAB sTwo rfl (by decide) (by decide) rfl).2.2⟩

/-- Claim C9: dispatch order — the batch read by `create_workers` is the
up-to-100 oldest pending tasks (the first-inserted front segment of the
store), reading it deletes nothing (rows disappear only one by one at
dispatch, leaving exactly the remainder of the store), and the tasks are
dispatched exactly in the order of the batch, which is the store's
insertion order. -/
theorem claim_C9_dispatch_order (reg : List String) (s : ForemanS)
    (hs : s.stopping = false)
    (hreg : ∀ t ∈ s.store, reg.contains t.task_name = true)
    (hnd : (s.store.map Task.id).Nodup)
    (hdi : s.dispatched = []) :
    (s.store.take 100).length ≤ 100 ∧
    create_workers reg sigFalse s =
      CWResult.ret (s.store.take 100).length
        ⟨s.store.drop 100, false,
         s.workers ++ (s.store.take 100).map Task.id,
         (s.store.take 100).map Task.id,
         s.trace ++ trailOf 0 (s.store.take 100)⟩ := by
  have hcw := create_workers_quiet reg s hs hreg hnd
  rw [hdi, List.nil_append] at hcw
  exact ⟨by rw [List.length_take]; omega, hcw⟩

theorem claim_C9_witness :
    (sTwo.store.map Task.id).Nodup ∧
    ((sTwo.store.take 100).length ≤ 100 ∧
      create_workers regAB sigFalse sTwo =
        CWResult.ret (sTwo.store.take 100).length
          ⟨sTwo.store.drop 100, false,
           sTwo.workers ++ (sTwo.store.take 100).map Task.id,
           (sTwo.store.take 100).map Task.id,
           sTwo.trace ++ trailOf 0 (sTwo.store.take 100)⟩) :=
  ⟨by decide, claim_C9_dispatch_order regAB sTwo rfl (by decide) (by decide) rfl⟩

lemma get_id_not_mem_take :
    ∀ (l : List Task) (k : Nat) (hk : k < l.length),
      (l.map Task.id).Nodup → (l.get ⟨k, hk⟩).id ∉ (l.take k).map Task.id
  | [], k, hk, _ => absurd hk (by simp)
  | t :: rest, 0, _, _ => by simp
  | t :: rest, j + 1, hk, hnd => by
      rw [List.map_cons, List.nodup_cons] at hnd
      intro hmem
      rw [List.take_succ_cons, List.map_cons] at hmem
      have hget : (t :: rest).get ⟨j + 1, hk⟩ = rest.get ⟨j, Nat.lt_of_succ_lt_succ hk⟩ := rfl
      rcases List.mem_cons.mp hmem with heq | hmem2
      · have hin : (rest.get ⟨j, Nat.lt_of_succ_lt_succ hk⟩).id ∈ rest.map Task.id :=
          List.mem_map.mpr ⟨_, List.get_mem _ _ _, rfl⟩
        rw [hget] at heq
        exact hnd.1 (heq ▸ hin)
      · rw [hget] at hmem2
        exact get_id_not_mem_take rest j (Nat.lt_of_succ_lt_succ hk) hnd.2 hmem2

/-- Claim C10: shutdown-exit store atomicity — whenever a stopping check
inside `create_workers` terminates the process, the processed front
segment of the batch is the only part whose rows were deleted: every
batch task past that segment, and every task beyond the batch, still has
its row in the store at process exit, and the exit path itself deletes
nothing. -/
theorem claim_C10_exit_atomicity (reg : List String) (sig : Nat → Bool)
    (s s' : ForemanS) (hnd : (s.store.map Task.id).Nodup)
    (hex : create_workers reg sig s = CWResult.exit s') :
    ∃ p suf, s.store.take 100 = p ++ suf ∧
      s'.store = purge s.store p ∧
      s'.dispatched = s.dispatched ++ p.map Task.id ∧
      (∀ t ∈ suf, t ∈ s'.store) ∧
      (∀ t ∈ s.store.drop 100, t ∈ s'.store) := by
  rcases dispatchBatch_split reg sig (s.store.take 100) 0 s with
    ⟨p, suf, ex, hsp, hstore0, hdisp0, htrace, hexx⟩
  have hst : (create_workers reg sig s).state = s' := by
    rw [hex]
    rfl
  have hstore : (create_workers reg sig s).state.store = purge s.store p := hstore0
  have hdisp : (create_workers reg sig s).state.dispatched =
      s.dispatched ++ p.map Task.id := hdisp0
  rw [hst] at hstore hdisp
  have hbatchnd : ((s.store.take 100).map Task.id).Nodup :=
    hnd.sublist ((List.take_sublist 100 s.store).map Task.id)
  have hdisj : (p.map Task.id).Disjoint (suf.map Task.id) := by
    rw [hsp, List.map_append] at hbatchnd
    exact List.disjoint_of_nodup_append hbatchnd
  have hstorend : (s.store.map Task.id).Nodup := hnd
  have hsplitstore : s.store.map Task.id =
      (s.store.take 100).map Task.id ++ (s.store.drop 100).map Task.id := by
    rw [← List.map_append, List.take_append_drop]
  have hdisj2 : ((s.store.take 100).map Task.id).Disjoint
      ((s.store.drop 100).map Task.id) := by
    rw [hsplitstore] at hstorend
    exact List.disjoint_of_nodup_append hstorend
  refine ⟨p, suf, hsp, hstore, hdisp, ?_, ?_⟩
  · intro t ht
    have htst : t ∈ s.store :=
      List.mem_of_mem_take (by rw [hsp]; exact List.mem_append_right p ht)
    have hnotp : t.id ∉ p.map Task.id := fun hin =>
      hdisj hin (List.mem_map.mpr ⟨t, ht, rfl⟩)
    rw [hstore]
    exact mem_purge_of_not_mem p s.store t htst hnotp
  · intro t ht
    have htst : t ∈ s.store := List.mem_of_mem_drop ht
    have hnotp : t.id ∉ p.map Task.id := by
      intro hin
      have hintake : t.id ∈ (s.store.take 100).map Task.id := by
        rw [hsp, List.map_append]
        exact List.mem_append_left _ hin
      exact hdisj2 hintake (List.mem_map.mpr ⟨t, ht, rfl⟩)
    rw [hstore]
    exact mem_purge_of_not_mem p s.store t htst hnotp

theorem claim_C10_witness :
    (sTwo.store.map Task.id).Nodup ∧
    create_workers regAB sigAt1 sTwo =
      CWResult.exit ⟨[tTwo], true, [1], [1],
        [Ev.acquireSlot 0, Ev.deleteRow 1, Ev.startExec 1, Ev.acquireSlot 1]⟩ ∧
    (∃ p suf, sTwo.store.take 100 = p ++ suf ∧
      (ForemanS.mk [tTwo] true [1] [1]
        [Ev.acquireSlot 0, Ev.deleteRow 1, Ev.startExec 1, Ev.acquireSlot 1]).store =
          purge sTwo.store p ∧
      (ForemanS.mk [tTwo] true [1] [1]
        [Ev.acquireSlot 0, Ev.deleteRow 1, Ev.startExec 1, Ev.acquireSlot 1]).dispatched =
          sTwo.dispatched ++ p.map Task.id ∧
      (∀ t ∈ suf, t ∈ (ForemanS.mk [tTwo] true [1] [1]
        [Ev.acquireSlot 0, Ev.deleteRow 1, Ev.startExec 1, Ev.acquireSlot 1]).store) ∧
      (∀ t ∈ sTwo.store.drop 100, t ∈ (ForemanS.mk [tTwo] true [1] [1]
        [Ev.acquireSlot 0, Ev.deleteRow 1, Ev.startExec 1, Ev.acquireSlot 1]).store)) :=
  ⟨by decide, by decide,
   claim_C10_exit_atomicity regAB sigAt1 sTwo _ (by decide) (by decide)⟩

/-- Claim C7 fails on the code: when a SIGINT arrives while the
dispatcher is blocked acquiring a slot, the `check_for_stopping()` call
right after the acquire exits the process, so the fetched task is neither
deleted from the store nor dispatched — the code does not "proceed with
that task" as the claim states.  Concretely, with one pending task and a
SIGINT during its slot acquisition, `create_workers` exits with the
task's row intact and nothing dispatched. -/
theorem claim_C7_counterexample :
    create_workers regAB sigAll sOne =
      CWResult.exit ⟨[tOne], true, [], [], [Ev.acquireSlot 0]⟩ ∧
    tOne ∈ (create_workers regAB sigAll sOne).state.store ∧
    (create_workers regAB sigAll sOne).state.dispatched = [] := by
  exact ⟨by decide, by decide, by decide⟩

/-- Claim C7, amended: if a shutdown request arrives while the dispatcher
is blocked acquiring a worker slot for the batch task at position `k`,
the dispatcher does NOT proceed with that task — the stopping check after
the acquire runs the shutdown path and exits the process; the task is not
dispatched, its row remains in the Task Store, and only the tasks before
position `k` were dispatched. -/
theorem claim_C7_amended (reg : List String) (sig : Nat → Bool) (s : ForemanS)
    (k : Nat) (hk : k < (s.store.take 100).length)
    (hs : s.stopping = false)
    (hsig : ∀ i, i < k → sig i = false)
    (hsigk : sig k = true)
    (hreg : ∀ t ∈ (s.store.take 100).take k, reg.contains t.task_name = true)
    (hnd : (s.store.map Task.id).Nodup)
    (hdi : s.dispatched = []) :
    ∃ s', create_workers reg sig s = CWResult.exit s' ∧
      s'.dispatched = ((s.store.take 100).take k).map Task.id ∧
      (s.store.take 100).get ⟨k, hk⟩ ∈ s'.store ∧
      ((s.store.take 100).get ⟨k, hk⟩).id ∉ s'.dispatched := by
  have hB := dispatchBatch_exit_at reg sig (s.store.take 100) k 0 s hk hs
    (fun i hi => by simpa using hsig i hi)
    (by simpa using hsigk)
    hreg
  have hcw : create_workers reg sig s =
      CWResult.exit
        ⟨purge s.store ((s.store.take 100).take k), true,
         s.workers ++ ((s.store.take 100).take k).map Task.id,
         s.dispatched ++ ((s.store.take 100).take k).map Task.id,
         s.trace ++ trailOf 0 ((s.store.take 100).take k) ++ [Ev.acquireSlot (0 + k)]⟩ := hB
  have hbatchnd : ((s.store.take 100).map Task.id).Nodup :=
    hnd.sublist ((List.take_sublist 100 s.store).map Task.id)
  have hnotk : ((s.store.take 100).get ⟨k, hk⟩).id ∉
      ((s.store.take 100).take k).map Task.id :=
    get_id_not_mem_take (s.store.take 100) k hk hbatchnd
  refine ⟨_, hcw, by simp [hdi], ?_, ?_⟩
  · have hmem : (s.store.take 100).get ⟨k, hk⟩ ∈ s.store :=
      List.mem_of_mem_take (List.get_mem _ _ _)
    exact mem_purge_of_not_mem _ s.store _ hmem hnotk
  · simpa [hdi] using hnotk

theorem claim_C7_witness :
    sigAt1 1 = true ∧
    (∃ s', create_workers regAB sigAt1 sTwo = CWResult.exit s' ∧
      s'.dispatched = ((sTwo.store.take 100).take 1).map Task.id ∧
      (sTwo.store.take 100).get ⟨1, by decide⟩ ∈ s'.store ∧
      ((sTwo.store.take 100).get ⟨1, by decide⟩).id ∉ s'.dispatched) :=
  ⟨rfl,
   claim_C7_amended regAB sigAt1 sTwo 1 (by decide) rfl
     (fun i hi => by
       have h0 : i = 0 := by omega
       rw [h0]
       rfl)
     rfl (by decide) (by decide) rfl⟩

/-- Claim C8 fails on the code: for a dequeued task whose `task_name` is
not in the registry, the lookup `registry[task.task_name]` (foreman.py
line 189) raises a `KeyError` with no handler in `create_workers` or
`run_forever` (the TODO at lines 186-187 records the missing handler), so
the error propagates out of the dispatcher loop, and the lookup happens
before `task.delete()` (line 194), so the task's row is still in the
store — it has not "already been deleted" as the claim states. -/
theorem claim_C8_counterexample :
    create_workers ["alpha"] sigFalse ⟨[⟨3, "gamma", "[]", ""⟩], false, [], [], []⟩ =
      CWResult.keyError "gamma"
        ⟨[⟨3, "gamma", "[]", ""⟩], false, [], [], [Ev.acquireSlot 0]⟩ ∧
    (⟨3, "gamma", "[]", ""⟩ : Task) ∈
      (create_workers ["alpha"] sigFalse
        ⟨[⟨3, "gamma", "[]", ""⟩], false, [], [], []⟩).state.store ∧
    (create_workers ["alpha"] sigFalse
        ⟨[⟨3, "gamma", "[]", ""⟩], false, [], [], []⟩).state.dispatched = [] := by
  exact ⟨by decide, by decide, by decide⟩

/-- Claim C8, amended: a dequeued task whose `task_name` is not in the
registry makes the lookup raise an uncaught error that aborts
`create_workers` (crashing the dispatcher loop); at that point the
failing task's row has NOT been deleted and remains in the store, while
the tasks before it in the batch were already dispatched normally. -/
theorem claim_C8_amended (reg : List String) (sig : Nat → Bool) (s : ForemanS)
    (k : Nat) (hk : k < (s.store.take 100).length)
    (hs : s.stopping = false)
    (hsig : ∀ i, i ≤ k → sig i = false)
    (hbad : reg.contains ((s.store.take 100).get ⟨k, hk⟩).task_name = false)
    (hreg : ∀ t ∈ (s.store.take 100).take k, reg.contains t.task_name = true)
    (hnd : (s.store.map Task.id).Nodup)
    (hdi : s.dispatched = []) :
    ∃ s', create_workers reg sig s =
        CWResult.keyError ((s.store.take 100).get ⟨k, hk⟩).task_name s' ∧
      (s.store.take 100).get ⟨k, hk⟩ ∈ s'.store ∧
      s'.dispatched = ((s.store.take 100).take k).map Task.id := by
  have hC := dispatchBatch_keyError_at reg sig (s.store.take 100) k 0 s hk hs
    (fun i hi => by simpa using hsig i hi)
    hbad
    hreg
  have hcw : create_workers reg sig s =
      CWResult.keyError ((s.store.take 100).get ⟨k, hk⟩).task_name
        ⟨purge s.store ((s.store.take 100).take k), false,
         s.workers ++ ((s.store.take 100).take k).map Task.id,
         s.dispatched ++ ((s.store.take 100).take k).map Task.id,
         s.trace ++ trailOf 0 ((s.store.take 100).take k) ++ [Ev.acquireSlot (0 + k)]⟩ := hC
  have hbatchnd : ((s.store.take 100).map Task.id).Nodup :=
    hnd.sublist ((List.take_sublist 100 s.store).map Task.id)
  have hnotk : ((s.store.take 100).get ⟨k, hk⟩).id ∉
      ((s.store.take 100).take k).map Task.id :=
    get_id_not_mem_take (s.store.take 100) k hk hbatchnd
  refine ⟨_, hcw, ?_, by simp [hdi]⟩
  have hmem : (s.store.take 100).get ⟨k, hk⟩ ∈ s.store :=
    List.mem_of_mem_take (List.get_mem _ _ _)
  exact mem_purge_of_not_mem _ s.store _ hmem hnotk

theorem claim_C8_witness :
    regAB.contains ((sDelta.store.take 100).get ⟨1, by decide⟩).task_name = false ∧
    (∃ s', create_workers regAB sigFalse sDelta =
        CWResult.keyError ((sDelta.store.take 100).get ⟨1, by decide⟩).task_name s' ∧
      (sDelta.store.take 100).get ⟨1, by decide⟩ ∈ s'.store ∧
      s'.dispatched = ((sDelta.store.take 100).take 1).map Task.id) :=
  ⟨by decide,
   claim_C8_amended regAB sigFalse sDelta 1 (by decide) rfl (fun i _ => rfl)
     (by decide) (by decide) (by decide) rfl⟩

/-- Operations touching the `worker_semaphore`
(`threading.Semaphore(NUM_WORKERS)`, foreman.py line 85):
`dispatch` is the foreman's `acquire()` followed by the stopping checks
passing and the task being handed to a worker (enabled only when a permit
exists and the stopping flag is clear — when the flag is set the check
after the acquire exits instead of dispatching); `workerDone` is the
`release()` in the worker's `finally` block (line 100); `sigint` is
`handle_sigint`, which sets the stopping flag and performs its
unconditional `release()` (line 127). -/
inductive SlotOp where
  | dispatch
  | workerDone
  | sigint
deriving DecidableEq

/-- Semaphore value, number of in-flight task executions, and the
stopping flag. -/
structure SlotS where
  sem : Nat
  inFlight : Nat
  stopping : Bool
deriving DecidableEq

def slotInit : SlotS := ⟨NUM_WORKERS, 0, false⟩

/-- One step of the worker-slot protocol.  A `threading.Semaphore` blocks
`acquire()` at value 0 (so `dispatch` and a zero semaphore yield no step,
never a negative value) and `release()` increments without any upper
bound. -/
def slotStep (s : SlotS) : SlotOp → Option SlotS
  | SlotOp.dispatch =>
      if 0 < s.sem && !s.stopping then some ⟨s.sem - 1, s.inFlight + 1, s.stopping⟩
      else none
  | SlotOp.workerDone =>
      if 0 < s.inFlight then some ⟨s.sem + 1, s.inFlight - 1, s.stopping⟩
      else none
  | SlotOp.sigint => some ⟨s.sem + 1, s.inFlight, true⟩

def slotRunFrom : SlotS → List SlotOp → Option SlotS
  | s, [] => some s
  | s, op :: ops =>
      match slotStep s op with
      | none => none
      | some s2 => slotRunFrom s2 ops

/-- Execution of a sequence of worker-slot operations from the initial
state (semaphore at `NUM_WORKERS`, nothing in flight). -/
def slotRun (ops : List SlotOp) : Option SlotS :=
  slotRunFrom slotInit ops

lemma slotStep_inv {s s2 : SlotS} {op : SlotOp}
    (h : slotStep s op = some s2)
    (hi : s.inFlight ≤ NUM_WORKERS ∧
      (s.stopping = false → s.sem + s.inFlight ≤ NUM_WORKERS)) :
    s2.inFlight ≤ NUM_WORKERS ∧
      (s2.stopping = false → s2.sem + s2.inFlight ≤ NUM_WORKERS) := by
  cases op with
  | dispatch =>
      rw [slotStep] at h
      split at h
      · rename_i hc
        rw [Option.some.injEq] at h
        subst h
        simp only [Bool.and_eq_true, decide_eq_true_eq, Bool.not_eq_eq_eq_not,
          Bool.not_true] at hc
        rcases hc with ⟨hsem, hstop⟩
        have hb := hi.2 hstop
        constructor
        · simp only []
          omega
        · intro _
          simp only []
          omega
      · exact absurd h (by simp)
  | workerDone =>
      rw [slotStep] at h
      split at h
      · rename_i hc
        rw [Option.some.injEq] at h
        subst h
        constructor
        · have := hi.1
          simp only []
          omega
        · intro hstop
          have hb := hi.2 hstop
          simp only [] at hc ⊢
          omega
      · exact absurd h (by simp)
  | sigint =>
      rw [slotStep, Option.some.injEq] at h
      subst h
      exact ⟨hi.1, by intro hcon; cases hcon⟩

lemma slotRunFrom_inv :
    ∀ (ops : List SlotOp) (s s2 : SlotS),
      slotRunFrom s ops = some s2 →
      (s.inFlight ≤ NUM_WORKERS ∧
        (s.stopping = false → s.sem + s.inFlight ≤ NUM_WORKERS)) →
      s2.inFlight ≤ NUM_WORKERS ∧
        (s2.stopping = false → s2.sem + s2.inFlight ≤ NUM_WORKERS)
  | [], s, s2, h, hi => by
      rw [slotRunFrom, Option.some.injEq] at h
      subst h
      exact hi
  | op :: ops, s, s2, h, hi => by
      rw [slotRunFrom] at h
      cases hstep : slotStep s op with
      | none => rw [hstep] at h; cases h
      | some s1 =>
          rw [hstep] at h
          exact slotRunFrom_inv ops s1 s2 h (slotStep_inv hstep hi)

/-- Claim C3 fails on the code: the slot count CAN exceed `NUM_WORKERS`.
`handle_sigint` releases the worker semaphore unconditionally (foreman.py
line 127) and `threading.Semaphore` is unbounded, so a SIGINT arriving
with no acquire outstanding pushes the value to `NUM_WORKERS + 1`. -/
theorem claim_C3_counterexample :
    slotRun [SlotOp.sigint] = some ⟨NUM_WORKERS + 1, 0, true⟩ ∧
    ¬ (NUM_WORKERS + 1 ≤ NUM_WORKERS) := by decide

/-- Claim C3, amended: starting from the initial state, under every
sequence of slot operations the semaphore value never goes negative (it
is blocked at zero by construction), the number of in-flight task
executions never exceeds `NUM_WORKERS`, and as long as no SIGINT release
has occurred (stopping flag still clear) the semaphore value plus the
in-flight count stays within `NUM_WORKERS` — but the SIGINT handler's
unconditional release can push the bare slot count above `NUM_WORKERS`. -/
theorem claim_C3_amended (ops : List SlotOp) (s2 : SlotS)
    (h : slotRun ops = some s2) :
    s2.inFlight ≤ NUM_WORKERS ∧
      (s2.stopping = false → s2.sem + s2.inFlight ≤ NUM_WORKERS) :=
  slotRunFrom_inv ops slotInit s2 h (by constructor <;> simp [slotInit, NUM_WORKERS])

theorem claim_C3_witness :
    slotRun [SlotOp.dispatch] = some ⟨3, 1, false⟩ ∧
    (1 ≤ NUM_WORKERS ∧ 3 + 1 ≤ NUM_WORKERS) :=
  ⟨by decide,
   (claim_C3_amended [SlotOp.dispatch] ⟨3, 1, false⟩ (by decide)).1,
   (claim_C3_amended [SlotOp.dispatch] ⟨3, 1, false⟩ (by decide)).2 rfl⟩

/-- Observable result of one worker's `non_failing_function`
(foreman.py lines 90-100): how often the wrapped handler was invoked,
what the `except` branch logged and forwarded to `capture_exception`, and
what the `finally` branch did (`workers.stopped` bookkeeping removal and
the `worker_semaphore.release()`). -/
structure WorkerRun where
  handlerInvocations : Nat
  captured : Option String
  loggedFailure : Option String
  workerRemoved : Bool
  slotReleases : Nat
deriving DecidableEq

/-- The worker wrapper built by `run_in_thread`: call the handler once;
on an exception log it and forward it to `capture_exception`; in the
`finally` block remove the bookkeeping entry and release the slot.  The
handler's outcome is `Except.ok ()` for normal return and
`Except.error e` when it raises `e`. -/
def non_failing_function (outcome : Except String Unit) : WorkerRun :=
  match outcome with
  | Except.ok _ => ⟨1, none, none, true, 1⟩
  | Except.error e => ⟨1, some e, some e, true, 1⟩

/-- Claim C4: exception isolation with guaranteed release — for every
handler outcome the wrapper returns normally (it never re-raises, so
nothing propagates to the dispatcher loop), the handler was invoked
exactly once, the failure (if any) was logged and forwarded to
`capture_exception`, and on every exit path the worker is removed from
the bookkeeping and the slot semaphore released exactly once. -/
theorem claim_C4_isolation (outcome : Except String Unit) :
    (non_failing_function outcome).workerRemoved = true ∧
    (non_failing_function outcome).slotReleases = 1 ∧
    (non_failing_function outcome).handlerInvocations = 1 ∧
    (∀ e, outcome = Except.error e →
      (non_failing_function outcome).captured = some e ∧
      (non_failing_function outcome).loggedFailure = some e) := by
  cases outcome with
  | ok u => exact ⟨rfl, rfl, rfl, fun e he => by cases he⟩
  | error e2 =>
      refine ⟨rfl, rfl, rfl, fun e he => ?_⟩
      cases he
      exact ⟨rfl, rfl⟩

theorem claim_C4_witness :
    (non_failing_function (Except.error "boom")).workerRemoved = true ∧
    (non_failing_function (Except.error "boom")).slotReleases = 1 ∧
    (non_failing_function (Except.error "boom")).captured = some "boom" :=
  ⟨(claim_C4_isolation (Except.error "boom")).1,
   (claim_C4_isolation (Except.error "boom")).2.1,
   ((claim_C4_isolation (Except.error "boom")).2.2.2 "boom" rfl).1⟩

/-- State touched by `Foreman.handle_sigint` (foreman.py lines 112-127):
the stopping flag, the recorded grace deadline, the number of wakeup
notification files in the wakeup directory, and the worker-semaphore
value. -/
structure SigS where
  stopping : Bool
  stop_deadline : Nat
  wakeupNotifications : Nat
  workerSem : Nat
deriving DecidableEq

/-- `handle_sigint`: only when the stopping flag is still clear, set it
and record the deadline `now + GRACEFUL_TIMEOUT`; then, on every
invocation, drop one wakeup notification file and release one
worker-semaphore permit unconditionally. -/
def handle_sigint (now : Nat) (s : SigS) : SigS :=
  let s1 :=
    if s.stopping = false then
      { s with stopping := true, stop_deadline := now + GRACEFUL_TIMEOUT }
    else s
  { s1 with wakeupNotifications := s1.wakeupNotifications + 1,
            workerSem := s1.workerSem + 1 }

/-- Claim C5: shutdown-trigger contract — the first `handle_sigint`
invocation sets the stopping flag and records the deadline
`now + GRACEFUL_TIMEOUT` (10 seconds); an invocation finding the flag
already set leaves flag and deadline unchanged, so any invocation after
the first never extends the deadline; and every invocation, first or
repeated, emits exactly one wakeup notification and releases exactly one
worker-pool slot. -/
theorem claim_C5_sigint_contract (s : SigS) (now : Nat) :
    (s.stopping = false →
      (handle_sigint now s).stopping = true ∧
      (handle_sigint now s).stop_deadline = now + GRACEFUL_TIMEOUT) ∧
    (s.stopping = true →
      (handle_sigint now s).stopping = true ∧
      (handle_sigint now s).stop_deadline = s.stop_deadline) ∧
    (∀ now2, (handle_sigint now2 (handle_sigint now s)).stopping = true ∧
      (handle_sigint now2 (handle_sigint now s)).stop_deadline =
        (handle_sigint now s).stop_deadline) ∧
    (handle_sigint now s).wakeupNotifications = s.wakeupNotifications + 1 ∧
    (handle_sigint now s).workerSem = s.workerSem + 1 := by
  cases hs : s.stopping <;> simp [handle_sigint, hs]

theorem claim_C5_witness :
    (SigS.mk false 0 0 0).stopping = false ∧
    (handle_sigint 5 (SigS.mk false 0 0 0)).stop_deadline = 5 + GRACEFUL_TIMEOUT ∧
    (handle_sigint 9 (handle_sigint 5 (SigS.mk false 0 0 0))).stop_deadline =
      (handle_sigint 5 (SigS.mk false 0 0 0)).stop_deadline :=
  ⟨rfl,
   ((claim_C5_sigint_contract (SigS.mk false 0 0 0) 5).1 rfl).2,
   ((claim_C5_sigint_contract (SigS.mk false 0 0 0) 5).2.2.1 9).2⟩

/-- `worker_thread.is_alive()` in discrete time: a worker is alive at
`now` if its handler never finishes (`none`) or finishes strictly later
than `now`. -/
def isAlive (finish : Option Nat) (now : Nat) : Bool :=
  match finish with
  | none => true
  | some f => decide (now < f)

/-- `worker_thread.join(timeLeft)`: the wall clock after waiting for the
worker, at most `timeLeft` long — until the worker finishes if that
happens first. -/
def joinUntil (now timeLeft : Nat) (finish : Option Nat) : Nat :=
  match finish with
  | none => now + timeLeft
  | some f => min (now + timeLeft) f

/-- The waiting loop of `check_for_stopping` (foreman.py lines 212-221):
for each bookkept worker (task id and optional absolute finish time), if
it is still alive and time remains until the deadline, join it with the
remaining time as the timeout; otherwise wait zero time.  Returns the
wall-clock time when the loop falls through to `sys.exit()`. -/
def waitLoop (deadline : Nat) : List (Nat × Option Nat) → Nat → Nat
  | [], now => now
  | (_, finish) :: rest, now =>
      waitLoop deadline rest
        (if isAlive finish now then
          (if 0 < deadline - now then joinUntil now (deadline - now) finish else now)
        else now)

/-- `Foreman.check_for_stopping` (foreman.py lines 205-224): a no-op when
the stopping flag is clear; otherwise wait for the workers bounded by the
deadline and exit the process, yielding the exit time. -/
def check_for_stopping (stopping : Bool) (deadline : Nat)
    (workers : List (Nat × Option Nat)) (now : Nat) : Option Nat :=
  if stopping then some (waitLoop deadline workers now) else none

lemma waitLoop_bounds (deadline : Nat) :
    ∀ (ws : List (Nat × Option Nat)) (now : Nat),
      now ≤ waitLoop deadline ws now ∧ waitLoop deadline ws now ≤ max now deadline
  | [], now => ⟨Nat.le_refl _, Nat.le_max_left _ _⟩
  | (wid, finish) :: rest, now => by
      rw [waitLoop]
      set now2 :=
        (if isAlive finish now then
          (if 0 < deadline - now then joinUntil now (deadline - now) finish else now)
        else now) with hnow2
      have hstep : now ≤ now2 ∧ now2 ≤ max now deadline := by
        rw [hnow2]
        by_cases ha : isAlive finish now
        · rw [if_pos ha]
          by_cases hd : 0 < deadline - now
          · rw [if_pos hd]
            cases finish with
            | none =>
                constructor
                · exact Nat.le_add_right _ _
                · have : now + (deadline - now) = deadline := by omega
                  rw [joinUntil, this]
                  exact Nat.le_max_right _ _
            | some f =>
                have hf : now < f := by
                  simpa [isAlive] using ha
                constructor
                · rw [joinUntil]
                  omega
                · rw [joinUntil]
                  have : now + (deadline - now) = deadline := by omega
                  rw [this]
                  have : min deadline f ≤ deadline := Nat.min_le_left _ _
                  omega
          · rw [if_neg hd]
            exact ⟨Nat.le_refl _, Nat.le_max_left _ _⟩
        · rw [if_neg ha]
          exact ⟨Nat.le_refl _, Nat.le_max_left _ _⟩
      have hrec := waitLoop_bounds deadline rest now2
      constructor
      · exact Nat.le_trans hstep.1 hrec.1
      · have h2 : max now2 deadline ≤ max now deadline := by
          have := hstep.2
          omega
        exact Nat.le_trans hrec.2 h2

lemma waitLoop_frozen (deadline : Nat) :
    ∀ (ws : List (Nat × Option Nat)) (now : Nat),
      deadline ≤ now → waitLoop deadline ws now = now
  | [], _, _ => rfl
  | (wid, finish) :: rest, now, h => by
      rw [waitLoop]
      have hz : ¬ (0 < deadline - now) := by omega
      have : (if isAlive finish now then
          (if 0 < deadline - now then joinUntil now (deadline - now) finish else now)
        else now) = now := by
        by_cases ha : isAlive finish now
        · rw [if_pos ha, if_neg hz]
        · rw [if_neg ha]
      rw [this]
      exact waitLoop_frozen deadline rest now h

/-- Claim C6: graceful-shutdown deadline — with the stopping flag set,
`check_for_stopping` always exits the process (it is a total wait
followed by `sys.exit()`, even when some handler blocks forever), the
exit happens no later than `max now deadline` (so no later than the
recorded deadline whenever the shutdown starts before it), each still-
alive worker is waited on only for the time remaining until the deadline,
and once the deadline has passed no time at all is spent waiting; with
the flag clear, nothing happens. -/
theorem claim_C6_deadline (deadline now : Nat) (workers : List (Nat × Option Nat)) :
    check_for_stopping true deadline workers now =
      some (waitLoop deadline workers now) ∧
    now ≤ waitLoop deadline workers now ∧
    waitLoop deadline workers now ≤ max now deadline ∧
    (deadline ≤ now → waitLoop deadline workers now = now) ∧
    check_for_stopping false deadline workers now = none := by
  refine ⟨rfl, (waitLoop_bounds deadline workers now).1,
    (waitLoop_bounds deadline workers now).2,
    fun h => waitLoop_frozen deadline workers now h, rfl⟩

theorem claim_C6_witness :
    (10 : Nat) ≤ 25 ∧
    waitLoop 10 [(1, none), (2, some 40)] 25 = 25 ∧
    waitLoop 10 [(1, none), (2, some 40)] 7 ≤ max 7 10 :=
  ⟨by decide,
   (claim_C6_deadline 10 25 [(1, none), (2, some 40)]).2.2.2.1 (by decide),
   (claim_C6_deadline 10 7 [(1, none), (2, some 40)]).2.2.1⟩

end Snappea
